import Mathlib

/-!
Shallow embedding of `src/lib/changelog.ts` (class `Changelog`).

The GitHub REST API is modelled by an `Api` oracle supplying the data each
octokit call would return.  Every octokit call is recorded as one `Ev` event,
so pagination claims can be stated on the event trace.  The two unbounded
source loops (`for (let page = 0; ; page++)` tag searches and the
`for (;;)` commit-ensure loop in `generateChangelog`) are given explicit
fuel; `Err.outOfFuel` marks a loop that had not finished within the given
fuel, so `∀ fuel, result = Err.outOfFuel` states that the source loop never
terminates.  The outer release loop of `getPreviousRelease` likewise gets
fuel.  JavaScript `Array.prototype.indexOf` is modelled by `jsIndexOf`
(first index, `-1` when absent, as an `Int`).  Reading a property of
`undefined` (past the end of `releases.data`) is `Err.typeError`.
Base64 decoding is absorbed into the oracle: `ContentResponse.fileData`
carries the already-decoded file text.  The `branch` field can hold
`undefined` (the source assigns `repository.default_branch`, a property
read off the octokit response envelope itself rather than off `.data`, so
the assignment yields `undefined`); it is modelled by `JsString`.
The config field named after the changelog line marker (`prefix` in the
source) is called `pfx` here.
-/

/-- A tag as returned by `listTags`, reduced to the fields the source reads
(`tag.name` and `tag.commit.sha`). -/
structure Tag where
  name : String
  commitSha : String
deriving DecidableEq

/-- A raw pull request as returned by `pulls.list` (state=closed), reduced to
the fields the source reads: `html_url`, `title`, `merge_commit_sha`,
`merged_at` (nullable). -/
structure RawPullRequest where
  htmlUrl : String
  title : String
  mergeCommitSha : String
  mergedAt : Option String
deriving DecidableEq

/-- The `PullRequest` interface of the source. -/
structure PullRequest where
  url : String
  title : String
  commitSha : String
deriving DecidableEq

/-- The `Config` interface of the source (`pfx` stands for the line-marker
field, whose source name is a Lean keyword). -/
structure Config where
  branch : String
  title : String
  pfx : String
  githubToken : String
  owner : String
  repo : String
deriving DecidableEq

/-- Outcome of `repos.getContent` for `CHANGELOG.md` at a ref:
a thrown fetch error, a directory answer (`Array.isArray(response.data)`),
a file answer carrying the decoded content, or a response without a
`content` field. -/
inductive ContentResponse where
  | fetchError (message : String)
  | directoryData
  | fileData (content : String)
  | otherData
deriving DecidableEq

/-- One octokit call, recorded for the trace. -/
inductive Ev where
  | repoGet
  | latestReleaseGet
  | releasesList
  | tagsList (page : Nat)
  | commitsList (page : Nat)
  | pullsList (page : Nat)
  | contentGet
deriving DecidableEq

/-- Run-level failures of the model.  `typeError` is the JavaScript
`TypeError` thrown when `releases.data[i]` is `undefined` and `.tag_name`
is read; `apiError` is a thrown octokit error (e.g. `getLatestRelease` on a
repository without releases); `outOfFuel` marks an unbounded source loop
that had not finished within the given fuel. -/
inductive Err where
  | typeError
  | apiError
  | outOfFuel
deriving DecidableEq

/-- A JavaScript string-or-`undefined` value, for the `this.branch` field:
the constructor stores the string `""` there, while `setBranch` stores
`repository.default_branch`, which is `undefined` (see `setBranch`). -/
inductive JsString where
  | undef
  | str (s : String)
deriving DecidableEq

/-- JavaScript falsiness of a string-or-`undefined` value: `undefined` and
`""` are falsy, every other string is truthy. -/
def JsString.falsy : JsString → Bool
  | JsString.undef => true
  | JsString.str s => s = ""

/-- Oracle for the GitHub API.  Commit and pull-request pages are keyed by
the branch value the source passes (`sha:`/`base:` — possibly `undefined`,
in which case the parameter is effectively omitted) and by the page
number. -/
structure Api where
  latestRelease : Option String
  releases : List String
  tagPages : Nat → List Tag
  commitPages : JsString → Nat → List String
  prPages : JsString → Nat → List RawPullRequest
  content : String → ContentResponse

/-- The mutable fields of the `Changelog` class. -/
structure St where
  commits : List String
  commitPage : Nat
  latestTagsCommit : String
  previousTagsCommit : String
  pullRequests : List PullRequest
  pullRequestPage : Nat
  branch : JsString
  title : String
  pfx : String
  changelogBody : String
deriving DecidableEq

/-- JavaScript `Array.prototype.indexOf`: index of the first occurrence,
`-1` when absent. -/
def jsIndexOf (l : List String) (x : String) : Int :=
  match l with
  | [] => -1
  | y :: rest =>
    if y = x then 0
    else
      let r := jsIndexOf rest x
      if r = -1 then -1 else r + 1

namespace Changelog

/-- The constructor: every cursor and buffer starts empty; note that
`this.branch` is initialised to `""`, not to `config.branch`. -/
def mkChangelog (config : Config) : St :=
  { commits := []
    commitPage := 0
    latestTagsCommit := ""
    previousTagsCommit := ""
    pullRequests := []
    pullRequestPage := 0
    branch := JsString.str ""
    title := config.title
    pfx := config.pfx
    changelogBody := "" }

/-- The `changelog` getter. -/
def changelog (st : St) : String :=
  st.title ++ "\n" ++ st.changelogBody

/-- The `isEmpty` getter: `if (this.changelogBody) return false; return true;`
(a string is truthy iff non-empty). -/
def isEmpty (st : St) : Bool :=
  if st.changelogBody ≠ "" then false else true

/-- `setBranch`: when `this.branch` is falsy (`""` or `undefined`), fetch
the repository.  The source then assigns `repository.default_branch`, a
property read off the octokit response envelope itself; the payload sits
under `.data` (compare `release.data`, `releases.data`, `tags.data` at the
other call sites), so the envelope has no `default_branch` property and the
value assigned to `this.branch` is `undefined` — never the branch name.
The repository fetch still happens (and, `undefined` being falsy, happens
again on every later call). -/
def setBranch (_api : Api) (st : St) : St × List Ev :=
  if st.branch.falsy then
    ({ st with branch := JsString.undef }, [Ev.repoGet])
  else
    (st, [])

/-- `getTags(page)`: one `listTags` call, mapped to name/sha pairs. -/
def getTags (api : Api) (page : Nat) : List Tag × List Ev :=
  (api.tagPages page, [Ev.tagsList page])

/-- The `for (let page = 0; ; page++)` tag-search loop shared by
`getLatestRelease` and `getPreviousRelease`: fetch page after page and stop
when a page's filter by `tag.name === tagName` has length exactly 1
(matching `[tag]`).  Fuel bounds the number of iterations; `none` means the
loop was still running when the fuel ran out. -/
def tagSearch (api : Api) (tagName : String) : Nat → Nat → Option String × List Ev
  | _, 0 => (none, [])
  | page, fuel + 1 =>
    let releasesTag := (getTags api page).fst.filter (fun tag => tag.name = tagName)
    match releasesTag with
    | [tag] => (some tag.commitSha, (getTags api page).snd)
    | _ =>
      let rest := tagSearch api tagName (page + 1) fuel
      (rest.fst, (getTags api page).snd ++ rest.snd)

/-- `getLatestRelease`: fetch the latest release (an absent release is a
thrown octokit error), then search the tag list for its tag name and store
the tag's commit SHA. -/
def getLatestRelease (api : Api) (st : St) (fuel : Nat) : Except Err (St × List Ev) :=
  match api.latestRelease with
  | none => Except.error Err.apiError
  | some tagName =>
    match tagSearch api tagName 0 fuel with
    | (none, _) => Except.error Err.outOfFuel
    | (some sha, evs) =>
      Except.ok ({ st with latestTagsCommit := sha }, Ev.latestReleaseGet :: evs)

/-- The `for (let i = 0; ; i++)` loop of `getPreviousRelease`: read
`releases.data[i]` (reading `.tag_name` of `undefined` past the end throws a
`TypeError`), resolve its tag to a SHA via a fresh page-0 tag search, and
stop at the first SHA different from `latestTagsCommit`. -/
def prevLoop (api : Api) (latestTagsCommit : String) (tagFuel : Nat) :
    Nat → Nat → Except Err (String × List Ev)
  | _, 0 => Except.error Err.outOfFuel
  | i, ofuel + 1 =>
    match api.releases[i]? with
    | none => Except.error Err.typeError
    | some tagName =>
      match tagSearch api tagName 0 tagFuel with
      | (none, _) => Except.error Err.outOfFuel
      | (some releaseSha, evs) =>
        if releaseSha ≠ latestTagsCommit then
          Except.ok (releaseSha, evs)
        else
          match prevLoop api latestTagsCommit tagFuel (i + 1) ofuel with
          | Except.error e => Except.error e
          | Except.ok (sha, evs2) => Except.ok (sha, evs ++ evs2)

/-- `getPreviousRelease`: list the releases once, then scan them with
`prevLoop` and store the first SHA distinct from the latest tag's commit. -/
def getPreviousRelease (api : Api) (st : St) (fuel : Nat) : Except Err (St × List Ev) :=
  match prevLoop api st.latestTagsCommit fuel 0 fuel with
  | Except.error e => Except.error e
  | Except.ok (sha, evs) =>
    Except.ok ({ st with previousTagsCommit := sha }, Ev.releasesList :: evs)

/-- `getCommits`: fetch the page at the current cursor on `this.branch`,
append its SHAs to `this.commits`, and advance the cursor by one. -/
def getCommits (api : Api) (st : St) : St × List Ev :=
  let commits := api.commitPages st.branch st.commitPage
  ({ st with
      commits := st.commits ++ commits
      commitPage := st.commitPage + 1 },
   [Ev.commitsList st.commitPage])

/-- `getPullRequests`: fetch the closed-PR page at the current cursor on
`this.branch`, keep those with a non-null `merged_at`, map them to
`PullRequest` values, append, and advance the cursor by one. -/
def getPullRequests (api : Api) (st : St) : St × List Ev :=
  let rawPullRequests := api.prPages st.branch st.pullRequestPage
  let mergedPullRequests := rawPullRequests.filter (fun pullRequest => pullRequest.mergedAt.isSome)
  let pullRequests := mergedPullRequests.map (fun pullRequest =>
    { url := pullRequest.htmlUrl
      title := pullRequest.title
      commitSha := pullRequest.mergeCommitSha : PullRequest })
  ({ st with
      pullRequests := st.pullRequests ++ pullRequests
      pullRequestPage := st.pullRequestPage + 1 },
   [Ev.pullsList st.pullRequestPage])

/-- The `for (;;)` loop opening `generateChangelog`: recompute both tag
indexes; while the previous tag's index is `-1`, fetch one more commit page;
otherwise break (both break branches of the source return the same state).
`none` means the loop was still running when the fuel ran out. -/
def ensureLoop (api : Api) : Nat → St → Option (St × Int × Int × List Ev)
  | 0, _ => none
  | fuel + 1, st =>
    let indexOfLatestTag := jsIndexOf st.commits st.latestTagsCommit
    let indexOfPreviousTag := jsIndexOf st.commits st.previousTagsCommit
    if indexOfPreviousTag = -1 then
      match getCommits api st with
      | (st2, evs) =>
        match ensureLoop api fuel st2 with
        | none => none
        | some (st3, iL, iP, evs2) => some (st3, iL, iP, evs ++ evs2)
    else if st.commits.length ≤ 0 then
      some (st, indexOfLatestTag, indexOfPreviousTag, [])
    else
      some (st, indexOfLatestTag, indexOfPreviousTag, [])

/-- The `for (let i = 0; ; i++)` scan of `generateChangelog` over
`this.pullRequests`: stop at the end of the list, or as soon as a PR's
commit index is `-1`, below `indexOfLatestTag`, or at/above
`indexOfPreviousTag`; otherwise append one formatted line and continue. -/
def prScan (commits : List String) (pfx : String)
    (indexOfLatestTag indexOfPreviousTag : Int) : List PullRequest → String
  | [] => ""
  | pullRequest :: rest =>
    let indexOfPullRequest := jsIndexOf commits pullRequest.commitSha
    if indexOfPullRequest = -1 ∨ indexOfPullRequest < indexOfLatestTag ∨
        indexOfPullRequest ≥ indexOfPreviousTag then
      ""
    else
      pfx ++ " " ++ pullRequest.title ++ "\n" ++
        prScan commits pfx indexOfLatestTag indexOfPreviousTag rest

/-- `getChangelogFileContent`: fetch `CHANGELOG.md` at the previous tag's
commit; a thrown error, a directory answer, or a response without content
all degrade to `""`. -/
def getChangelogFileContent (api : Api) (st : St) : String × List Ev :=
  match api.content st.previousTagsCommit with
  | ContentResponse.fetchError _ => ("", [Ev.contentGet])
  | ContentResponse.directoryData => ("", [Ev.contentGet])
  | ContentResponse.fileData c => (c, [Ev.contentGet])
  | ContentResponse.otherData => ("", [Ev.contentGet])

/-- `generateChangelog`: run the ensure loop, scan the pull requests into
formatted lines, append the prior changelog file content, and store the
result in `this.changelogBody`. -/
def generateChangelog (api : Api) (st : St) (fuel : Nat) : Except Err (St × List Ev) :=
  match ensureLoop api fuel st with
  | none => Except.error Err.outOfFuel
  | some (st2, indexOfLatestTag, indexOfPreviousTag, evs) =>
    let changelogBody := prScan st2.commits st2.pfx indexOfLatestTag indexOfPreviousTag
      st2.pullRequests
    let fetched := getChangelogFileContent api st2
    let changelogBody := changelogBody ++ fetched.fst
    Except.ok ({ st2 with changelogBody := changelogBody }, evs ++ fetched.snd)

/-- `run`: the six steps of the source's `run`, in order, threading the
state and concatenating the event trace. -/
def run (api : Api) (config : Config) (fuel : Nat) : Except Err (St × List Ev) :=
  let st0 := mkChangelog config
  match setBranch api st0 with
  | (st1, evs1) =>
    match getLatestRelease api st1 fuel with
    | Except.error e => Except.error e
    | Except.ok (st2, evs2) =>
      match getPreviousRelease api st2 fuel with
      | Except.error e => Except.error e
      | Except.ok (st3, evs3) =>
        match getCommits api st3 with
        | (st4, evs4) =>
          match getPullRequests api st4 with
          | (st5, evs5) =>
            match generateChangelog api st5 fuel with
            | Except.error e => Except.error e
            | Except.ok (st6, evs6) =>
              Except.ok (st6, evs1 ++ evs2 ++ evs3 ++ evs4 ++ evs5 ++ evs6)

end Changelog

open Changelog

/-- Trace projection: the page of a commit-list call, `none` for any other
event. -/
def evCommitPage : Ev → Option Nat
  | Ev.commitsList page => some page
  | _ => none

/-- Trace projection: the page of a pull-request-list call, `none` for any
other event. -/
def evPullPage : Ev → Option Nat
  | Ev.pullsList page => some page
  | _ => none

/-- The event trace of a run result (empty on failure). -/
def resultTrace (r : Except Err (St × List Ev)) : List Ev :=
  match r with
  | Except.ok p => p.snd
  | Except.error _ => []

/-- The final state of a run result, or the given default on failure. -/
def resultState (r : Except Err (St × List Ev)) (d : St) : St :=
  match r with
  | Except.ok p => p.fst
  | Except.error _ => d

/-- A configuration without a branch override. -/
def cfgA : Config :=
  { branch := ""
    title := "Release"
    pfx := "-"
    githubToken := "t"
    owner := "o"
    repo := "r" }

/-- A configuration with the branch override `develop`. -/
def cfgB : Config :=
  { cfgA with branch := "develop" }

/-- A repository oracle with two releases `v2` (latest, commit `s2`) and
`v1` (commit `s1`), a four-commit first page, one merged and one unmerged
closed PR, and no readable changelog file.  Commit and PR pages are listed
under the `undefined` branch key: that is the value `setBranch` leaves in
`this.branch`, under which octokit omits the `sha`/`base` parameter and
GitHub answers for the default branch. -/
def apiA : Api :=
  { latestRelease := some "v2"
    releases := ["v2", "v1"]
    tagPages := fun page => if page = 0 then [⟨"v2", "s2"⟩, ⟨"v1", "s1"⟩] else []
    commitPages := fun branch page =>
      if branch = JsString.undef ∧ page = 0 then ["s3", "s2", "x1", "s1"] else []
    prPages := fun branch page =>
      if branch = JsString.undef ∧ page = 0 then
        [⟨"u1", "Add feature", "s2", some "2024-01-01"⟩,
         ⟨"u2", "Old fix", "zz", none⟩]
      else []
    content := fun _ => ContentResponse.fetchError "Not Found" }

/-- Like `apiA` but with no pull requests at all and a readable prior
changelog file. -/
def apiB5 : Api :=
  { apiA with
    prPages := fun _ _ => []
    content := fun _ => ContentResponse.fileData "old entries\n" }

/-- A repository oracle whose tag list is empty on every page: no searched
tag name ever appears. -/
def apiNone : Api :=
  { latestRelease := some "v1.0.0"
    releases := ["v1.0.0"]
    tagPages := fun _ => []
    commitPages := fun _ _ => []
    prPages := fun _ _ => []
    content := fun _ => ContentResponse.otherData }

/-- A repository oracle with zero releases. -/
def apiZero : Api :=
  { apiNone with
    latestRelease := none
    releases := [] }

/-- A repository oracle with exactly one release `v1` whose tag resolves to
commit `s1`. -/
def apiOne : Api :=
  { apiNone with
    latestRelease := some "v1"
    releases := ["v1"]
    tagPages := fun page => if page = 0 then [⟨"v1", "s1"⟩] else [] }

/-- Commit history for the assembler scenario: commit page 0 (under the
`undefined` branch key `setBranch` leaves behind) is `[c5, c4, c3, c2, c1]`
(newest first). -/
def apiC1 : Api :=
  { latestRelease := some "v2"
    releases := ["v2", "v1"]
    tagPages := fun page => if page = 0 then [⟨"v2", "c4"⟩, ⟨"v1", "c1"⟩] else []
    commitPages := fun branch page =>
      if branch = JsString.undef ∧ page = 0 then ["c5", "c4", "c3", "c2", "c1"] else []
    prPages := fun branch page =>
      if branch = JsString.undef ∧ page = 0 then
        [⟨"u4", "PR four", "c4", some "2024-01-04"⟩,
         ⟨"u3", "PR three", "c3", some "2024-01-03"⟩,
         ⟨"u1", "PR one", "c1", some "2024-01-01"⟩]
      else []
    content := fun _ => ContentResponse.fetchError "Not Found" }

/-- State entering `generateChangelog` in the assembler scenario: the latest
tag's commit is `c4`, the previous tag's commit is `c1`, and the PR window
holds the three scenario pull requests. -/
def stC1 : St :=
  { commits := []
    commitPage := 0
    latestTagsCommit := "c4"
    previousTagsCommit := "c1"
    pullRequests :=
      [⟨"u4", "PR four", "c4"⟩, ⟨"u3", "PR three", "c3"⟩, ⟨"u1", "PR one", "c1"⟩]
    pullRequestPage := 1
    branch := JsString.undef
    title := "Release"
    pfx := "-"
    changelogBody := "" }

/-- The state `generateChangelog apiC1 stC1 3` ends in: commit page 0 has
been fetched, and the body holds the lines of the pull requests at commit
indexes 1 (`c4`) and 2 (`c3`). -/
def stC1Final : St :=
  { stC1 with
    commits := ["c5", "c4", "c3", "c2", "c1"]
    commitPage := 1
    changelogBody := "- PR four\n- PR three\n" }

/-- The state `run apiA cfgA 5` ends in. -/
def stA : St :=
  { commits := ["s3", "s2", "x1", "s1"]
    commitPage := 1
    latestTagsCommit := "s2"
    previousTagsCommit := "s1"
    pullRequests := [⟨"u1", "Add feature", "s2"⟩]
    pullRequestPage := 1
    branch := JsString.undef
    title := "Release"
    pfx := "-"
    changelogBody := "- Add feature\n" }

/-- The event trace `run apiA cfgA 5` (and `run apiB5 cfgA 5`) produces:
tags page 0 is fetched three times. -/
def evsA : List Ev :=
  [Ev.repoGet, Ev.latestReleaseGet, Ev.tagsList 0, Ev.releasesList,
   Ev.tagsList 0, Ev.tagsList 0, Ev.commitsList 0, Ev.pullsList 0, Ev.contentGet]

/-- The state `run apiB5 cfgA 5` ends in: no pull request at all, yet the
body holds the appended prior changelog content. -/
def stB5 : St :=
  { stA with
    pullRequests := []
    changelogBody := "old entries\n" }

/-- A state whose previous tag's commit `px` is absent from the commit
window; with every further commit page empty, the ensure loop never ends. -/
def stC3 : St :=
  { stA with previousTagsCommit := "px" }

deriving instance DecidableEq for Except

/-! ## Helper lemmas -/

theorem jsIndexOf_nonneg_of_mem (l : List String) (x : String) (h : x ∈ l) :
    0 ≤ jsIndexOf l x := by
  induction l with
  | nil => cases h
  | cons y rest ih =>
    rw [jsIndexOf]
    by_cases hy : y = x
    · simp [hy]
    · have hx : x ∈ rest := by
        cases h with
        | head => exact absurd rfl hy
        | tail _ h => exact h
      have hr := ih hx
      have hne : jsIndexOf rest x ≠ -1 := by omega
      simp only [if_neg hy, if_neg hne]
      omega

theorem jsIndexOf_eq_neg_one_of_not_mem (l : List String) (x : String) (h : x ∉ l) :
    jsIndexOf l x = -1 := by
  induction l with
  | nil => rfl
  | cons y rest ih =>
    rw [jsIndexOf]
    have hy : y ≠ x := fun he => h (he ▸ List.mem_cons_self y rest)
    have hr : jsIndexOf rest x = -1 := ih (fun hx => h (List.mem_cons_of_mem y hx))
    simp [if_neg hy, hr]

theorem jsIndexOf_ne_neg_one_of_mem (l : List String) (x : String) (h : x ∈ l) :
    jsIndexOf l x ≠ -1 := by
  have := jsIndexOf_nonneg_of_mem l x h
  omega

theorem jsIndexOf_append_of_mem (l more : List String) (x : String) (h : x ∈ l) :
    jsIndexOf (l ++ more) x = jsIndexOf l x := by
  induction l with
  | nil => cases h
  | cons y rest ih =>
    rw [List.cons_append, jsIndexOf, jsIndexOf]
    by_cases hy : y = x
    · simp [hy]
    · have hx : x ∈ rest := by
        cases h with
        | head => exact absurd rfl hy
        | tail _ h => exact h
      rw [ih hx]

theorem string_append_eq_empty_iff (s t : String) : s ++ t = "" ↔ s = "" ∧ t = "" := by
  constructor
  · intro h
    have hd : s.data ++ t.data = ([] : List Char) := by
      have := congrArg String.data h
      rwa [String.data_append] at this
    rw [List.append_eq_nil] at hd
    exact ⟨String.ext_iff.mpr hd.1, String.ext_iff.mpr hd.2⟩
  · rintro ⟨rfl, rfl⟩
    rfl

theorem getChangelogFileContent_snd (api : Api) (st : St) :
    (Changelog.getChangelogFileContent api st).snd = [Ev.contentGet] := by
  rw [Changelog.getChangelogFileContent]
  cases api.content st.previousTagsCommit <;> rfl

theorem getChangelogFileContent_congr (api : Api) (st st2 : St)
    (h : st.previousTagsCommit = st2.previousTagsCommit) :
    Changelog.getChangelogFileContent api st = Changelog.getChangelogFileContent api st2 := by
  rw [Changelog.getChangelogFileContent, Changelog.getChangelogFileContent, h]

theorem tagSearch_trace (api : Api) (tagName : String) :
    ∀ fuel page, (Changelog.tagSearch api tagName page fuel).snd.filterMap evCommitPage = [] ∧
      (Changelog.tagSearch api tagName page fuel).snd.filterMap evPullPage = [] := by
  intro fuel
  induction fuel with
  | zero => intro page; exact ⟨rfl, rfl⟩
  | succ n ih =>
    intro page
    rw [Changelog.tagSearch]
    split
    · exact ⟨rfl, rfl⟩
    · simp only [List.filterMap_append]
      have := ih (page + 1)
      constructor
      · rw [this.1]; rfl
      · rw [this.2]; rfl

theorem tagSearch_fst_none (api : Api) (tagName : String)
    (h : ∀ page tag, tag ∈ api.tagPages page → tag.name ≠ tagName) :
    ∀ fuel page, (Changelog.tagSearch api tagName page fuel).fst = none := by
  intro fuel
  induction fuel with
  | zero => intro page; rfl
  | succ n ih =>
    intro page
    have hfil : (Changelog.getTags api page).fst.filter (fun tag => tag.name = tagName) = [] := by
      rw [List.filter_eq_nil_iff]
      intro tag htag
      simp only [decide_eq_true_eq]
      exact h page tag htag
    rw [Changelog.tagSearch, hfil]
    exact ih (page + 1)

theorem prevLoop_trace (api : Api) (latest : String) (tagFuel : Nat) :
    ∀ ofuel i sha evs, Changelog.prevLoop api latest tagFuel i ofuel = Except.ok (sha, evs) →
      evs.filterMap evCommitPage = [] ∧ evs.filterMap evPullPage = [] := by
  intro ofuel
  induction ofuel with
  | zero => intro i sha evs h; cases h
  | succ n ih =>
    intro i sha evs h
    rw [Changelog.prevLoop] at h
    split at h
    · cases h
    · rename_i tagName hrel
      split at h
      · cases h
      · rename_i releaseSha evs1 htag
        split at h
        · rw [Except.ok.injEq, Prod.mk.injEq] at h
          have hsnd : (Changelog.tagSearch api tagName 0 tagFuel).snd = evs1 := by
            rw [htag]
          have := tagSearch_trace api tagName tagFuel 0
          rw [hsnd] at this
          rw [← h.2]
          exact this
        · split at h
          · cases h
          · rename_i sha2 evs2 hrec
            rw [Except.ok.injEq, Prod.mk.injEq] at h
            have hsnd : (Changelog.tagSearch api tagName 0 tagFuel).snd = evs1 := by
              rw [htag]
            have h1 := tagSearch_trace api tagName tagFuel 0
            rw [hsnd] at h1
            have h2 := ih (i + 1) sha2 evs2 hrec
            rw [← h.2]
            simp [List.filterMap_append, h1.1, h1.2, h2.1, h2.2]

theorem getLatestRelease_ok (api : Api) (st : St) (fuel : Nat) (st' : St) (evs : List Ev)
    (h : Changelog.getLatestRelease api st fuel = Except.ok (st', evs)) :
    ∃ tagName sha tagEvs, api.latestRelease = some tagName ∧
      Changelog.tagSearch api tagName 0 fuel = (some sha, tagEvs) ∧
      st' = { st with latestTagsCommit := sha } ∧ evs = Ev.latestReleaseGet :: tagEvs := by
  rw [Changelog.getLatestRelease] at h
  split at h
  · cases h
  · rename_i tagName hrel
    split at h
    · cases h
    · rename_i sha tagEvs htag
      rw [Except.ok.injEq, Prod.mk.injEq] at h
      exact ⟨tagName, sha, tagEvs, hrel, htag, h.1.symm, h.2.symm⟩

theorem getPreviousRelease_ok (api : Api) (st : St) (fuel : Nat) (st' : St) (evs : List Ev)
    (h : Changelog.getPreviousRelease api st fuel = Except.ok (st', evs)) :
    ∃ sha prevEvs, Changelog.prevLoop api st.latestTagsCommit fuel 0 fuel = Except.ok (sha, prevEvs) ∧
      st' = { st with previousTagsCommit := sha } ∧ evs = Ev.releasesList :: prevEvs := by
  rw [Changelog.getPreviousRelease] at h
  split at h
  · cases h
  · rename_i sha prevEvs hloop
    rw [Except.ok.injEq, Prod.mk.injEq] at h
    exact ⟨sha, prevEvs, hloop, h.1.symm, h.2.symm⟩

theorem ensureLoop_spec (api : Api) :
    ∀ fuel st st2 iL iP evs, Changelog.ensureLoop api fuel st = some (st2, iL, iP, evs) →
      iL = jsIndexOf st2.commits st2.latestTagsCommit ∧
      iP = jsIndexOf st2.commits st2.previousTagsCommit ∧
      st2.latestTagsCommit = st.latestTagsCommit ∧
      st2.previousTagsCommit = st.previousTagsCommit ∧
      st2.pfx = st.pfx ∧
      st2.pullRequests = st.pullRequests ∧
      st2.branch = st.branch ∧
      st2.title = st.title ∧
      st2.pullRequestPage = st.pullRequestPage ∧
      st.commitPage ≤ st2.commitPage ∧
      evs.filterMap evCommitPage =
        List.range' st.commitPage (st2.commitPage - st.commitPage) ∧
      evs.filterMap evPullPage = [] := by
  intro fuel
  induction fuel with
  | zero => intro st st2 iL iP evs h; cases h
  | succ n ih =>
    intro st st2 iL iP evs h
    rw [Changelog.ensureLoop] at h
    split at h
    · simp only [Changelog.getCommits] at h
      split at h
      · cases h
      · rename_i st3 iL' iP' evs2 hrec
        simp only [Option.some.injEq, Prod.mk.injEq] at h
        obtain ⟨h1, h2, h3, h4⟩ := h
        obtain ⟨A1, A2, A3, A4, A5, A6, A7, A8, A9, A10, A11, A12⟩ :=
          ih _ st3 iL' iP' evs2 hrec
        simp only at A3 A4 A5 A6 A7 A8 A9 A10 A11
        subst h1; subst h2; subst h3; subst h4
        refine ⟨A1, A2, A3, A4, A5, A6, A7, A8, A9, by omega, ?_, ?_⟩
        · rw [List.filterMap_append, A11]
          have hm : st3.commitPage - st.commitPage =
              (st3.commitPage - (st.commitPage + 1)) + 1 := by omega
          rw [hm, List.range'_succ]
          rfl
        · rw [List.filterMap_append, A12]
          rfl
    · split at h <;>
      · simp only [Option.some.injEq, Prod.mk.injEq] at h
        obtain ⟨h1, h2, h3, h4⟩ := h
        subst h1; subst h2; subst h3; subst h4
        exact ⟨rfl, rfl, rfl, rfl, rfl, rfl, rfl, rfl, rfl, Nat.le_refl _,
          by simp [Nat.sub_self, List.range'], rfl⟩

theorem ensureLoop_found (api : Api) (st : St) (fuel : Nat)
    (h : st.previousTagsCommit ∈ st.commits) :
    Changelog.ensureLoop api (fuel + 1) st =
      some (st, jsIndexOf st.commits st.latestTagsCommit,
            jsIndexOf st.commits st.previousTagsCommit, []) := by
  rw [Changelog.ensureLoop]
  rw [if_neg (jsIndexOf_ne_neg_one_of_mem st.commits st.previousTagsCommit h)]
  split <;> rfl

theorem ensureLoop_none_of_empty (api : Api) :
    ∀ fuel st, (∀ page, st.commitPage ≤ page → api.commitPages st.branch page = []) →
      st.previousTagsCommit ∉ st.commits → Changelog.ensureLoop api fuel st = none := by
  intro fuel
  induction fuel with
  | zero => intro st _ _; rfl
  | succ n ih =>
    intro st hp hm
    have hidx : jsIndexOf st.commits st.previousTagsCommit = -1 :=
      jsIndexOf_eq_neg_one_of_not_mem _ _ hm
    rw [Changelog.ensureLoop, if_pos hidx]
    simp only [Changelog.getCommits, hp st.commitPage (Nat.le_refl _), List.append_nil]
    rw [ih { st with commitPage := st.commitPage + 1 }
      (fun page hpage => hp page (le_trans (Nat.le_succ st.commitPage) hpage)) hm]

theorem generateChangelog_ok (api : Api) (st : St) (fuel : Nat) (st' : St) (evs : List Ev)
    (h : Changelog.generateChangelog api st fuel = Except.ok (st', evs)) :
    ∃ st2 iL iP evsE, Changelog.ensureLoop api fuel st = some (st2, iL, iP, evsE) ∧
      st' = { st2 with changelogBody :=
        Changelog.prScan st2.commits st2.pfx iL iP st2.pullRequests ++
          (Changelog.getChangelogFileContent api st2).fst } ∧
      evs = evsE ++ (Changelog.getChangelogFileContent api st2).snd := by
  rw [Changelog.generateChangelog] at h
  split at h
  · cases h
  · rename_i st2 iL iP evsE heq
    rw [Except.ok.injEq, Prod.mk.injEq] at h
    exact ⟨st2, iL, iP, evsE, heq, h.1.symm, h.2.symm⟩

theorem prScan_take (commits : List String) (pfx : String) (iL iP : Int) :
    ∀ prs : List PullRequest, ∃ k, k ≤ prs.length ∧
      Changelog.prScan commits pfx iL iP prs =
        ((prs.take k).map (fun pr => pfx ++ " " ++ pr.title ++ "\n")).foldr
          (fun a b => a ++ b) "" := by
  intro prs
  induction prs with
  | nil => exact ⟨0, Nat.le_refl _, rfl⟩
  | cons pr rest ih =>
    rw [Changelog.prScan]
    split
    · exact ⟨0, by simp, rfl⟩
    · obtain ⟨k, hk, he⟩ := ih
      refine ⟨k + 1, by simpa using hk, ?_⟩
      rw [List.take_succ_cons, List.map_cons, List.foldr_cons, he]

theorem run_ok (api : Api) (cfg : Config) (fuel : Nat) (st : St) (evs : List Ev)
    (h : Changelog.run api cfg fuel = Except.ok (st, evs)) :
    st.branch = JsString.undef ∧
    st.pullRequests = ((api.prPages JsString.undef 0).filter
        (fun pullRequest => pullRequest.mergedAt.isSome)).map
      (fun pullRequest => { url := pullRequest.htmlUrl, title := pullRequest.title,
                            commitSha := pullRequest.mergeCommitSha }) ∧
    evs.filterMap evPullPage = [0] ∧
    evs.filterMap evCommitPage = List.range' 0 st.commitPage ∧
    ∃ k, k ≤ st.pullRequests.length ∧
      st.changelogBody =
        ((st.pullRequests.take k).map (fun pr => st.pfx ++ " " ++ pr.title ++ "\n")).foldr
          (fun a b => a ++ b) "" ++ (Changelog.getChangelogFileContent api st).fst := by
  rw [Changelog.run] at h
  simp only [Changelog.mkChangelog, Changelog.setBranch, JsString.falsy,
    decide_True, eq_self_iff_true, ite_true] at h
  split at h
  · cases h
  · rename_i st2 evs2 heqL
    split at h
    · cases h
    · rename_i st3 evs3 heqP
      simp only [Changelog.getCommits, Changelog.getPullRequests] at h
      split at h
      · cases h
      · rename_i st6 evs6 heqG
        rw [Except.ok.injEq, Prod.mk.injEq] at h
        obtain ⟨hst, hevs⟩ := h
        obtain ⟨tagName, sha, tagEvs, hrel, htag, hst2, hevs2⟩ :=
          getLatestRelease_ok api _ fuel st2 evs2 heqL
        subst hst2; subst hevs2
        obtain ⟨sha2, prevEvs, hloop, hst3, hevs3⟩ :=
          getPreviousRelease_ok api _ fuel st3 evs3 heqP
        subst hst3; subst hevs3
        obtain ⟨stE, iL, iP, evsE, hens, hst6, hevs6⟩ :=
          generateChangelog_ok api _ fuel st6 evs6 heqG
        subst hst6; subst hevs6
        obtain ⟨A1, A2, A3, A4, A5, A6, A7, A8, A9, A10, A11, A12⟩ :=
          ensureLoop_spec api fuel _ stE iL iP evsE hens
        simp only at A3 A4 A5 A6 A7 A8 A9 A10 A11
        subst hst
        dsimp only at heqL hloop heqP heqG hens A3 A4 A5 A6 A7 A8 A9 A10 A11 hevs ⊢
        have ht := tagSearch_trace api tagName fuel 0
        rw [htag] at ht
        have hpl := prevLoop_trace api sha fuel fuel 0 sha2 prevEvs hloop
        refine ⟨A7, by rw [A6, List.nil_append], ?_, ?_, ?_⟩
        · rw [← hevs]
          simp [List.filterMap_append, List.filterMap_cons, evPullPage, ht.2, hpl.2, A12,
            getChangelogFileContent_snd]
        · rw [← hevs]
          simp [List.filterMap_append, List.filterMap_cons, evCommitPage, ht.1, hpl.1, A11,
            getChangelogFileContent_snd]
          obtain ⟨m2, hm2⟩ : ∃ m2, stE.commitPage = m2 + 1 :=
            ⟨stE.commitPage - 1, by omega⟩
          rw [hm2, List.range'_succ]
          simp
        · obtain ⟨k, hk, he⟩ := prScan_take stE.commits stE.pfx iL iP stE.pullRequests
          refine ⟨k, hk, ?_⟩
          rw [he]
          congr 1

/-! ## Claim theorems -/

/-- C1 counterexample: in the assembler scenario (commits
`[c5,c4,c3,c2,c1]`, `idxLatest=1`, `idxPrev=4`, PRs at `c4`, `c3`, `c1`),
the generated body is NOT only the `c3` PR's line: the PR at the
latest-tag boundary index 1 (`c4`) is also included, refuting the claim
that it is boundary-excluded. -/
theorem c1_counterexample :
    (resultState (Changelog.generateChangelog apiC1 stC1 3) stC1).changelogBody ≠
      "- PR three\n" ∧
    (resultState (Changelog.generateChangelog apiC1 stC1 3) stC1).changelogBody =
      "- PR four\n- PR three\n" := by decide

/-- C1 (amended): in the assembler scenario, `generateChangelog` includes
the PRs with shas `c4` (index 1 = `idxLatest`, in range, since the scan
range `[idxLatest, idxPrev)` is closed at `idxLatest`) and `c3` (index 2),
and the scan stops at the PR with sha `c1`, whose index 4 falls outside
`[1, 4)`. -/
theorem c1_amended :
    Changelog.generateChangelog apiC1 stC1 3 =
      Except.ok (stC1Final, [Ev.commitsList 0, Ev.contentGet]) ∧
    jsIndexOf ["c5", "c4", "c3", "c2", "c1"] "c4" = 1 ∧
    jsIndexOf ["c5", "c4", "c3", "c2", "c1"] "c1" = 4 ∧
    stC1Final.changelogBody = "- PR four\n- PR three\n" ∧
    Changelog.prScan ["c5", "c4", "c3", "c2", "c1"] "-" 1 4 stC1.pullRequests =
      "- PR four\n- PR three\n" := by decide

/-- C4: `getPreviousRelease` on a repository with zero releases, and on a
repository whose single release resolves to the same SHA as the latest tag,
fails with the modelled JavaScript `TypeError` (reading `.tag_name` of
`undefined` past the end of the release list), not with a
"no previous release" error — no such error exists in the code. -/
theorem c4_previous_release_type_error :
    Changelog.getPreviousRelease apiZero (Changelog.mkChangelog cfgA) 5 =
      Except.error Err.typeError ∧
    Changelog.getPreviousRelease apiOne
      { Changelog.mkChangelog cfgA with latestTagsCommit := "s1" } 5 =
      Except.error Err.typeError := by decide

/-- C5 counterexample: a run in which no PR line is generated (the PR
window is empty) but the prior changelog file holds `"old entries\n"` ends
with `isEmpty = false`: the getter reads the final body, which includes the
appended prior-content tail, refuting the claim that `isEmpty` is true. -/
theorem c5_counterexample :
    Changelog.run apiB5 cfgA 5 = Except.ok (stB5, evsA) ∧
    stB5.pullRequests = [] ∧
    Changelog.prScan stB5.commits stB5.pfx
      (jsIndexOf stB5.commits stB5.latestTagsCommit)
      (jsIndexOf stB5.commits stB5.previousTagsCommit) stB5.pullRequests = "" ∧
    stB5.changelogBody = "old entries\n" ∧
    Changelog.isEmpty stB5 = false := by decide

/-- C6: the constructor initialises `this.branch` to `""` and never reads
the configured override `develop`, so `setBranch` performs a repository
fetch even though an override is present; the fetch assigns
`repository.default_branch`, read off the response envelope, i.e.
`undefined` — so the branch used afterwards is neither the override nor any
branch name — and because `undefined` is falsy the call is not memoised:
a second `setBranch` (with or without override) fetches again.  Every part
of the claim fails. -/
theorem c6_branch_override_ignored :
    cfgB.branch = "develop" ∧
    (Changelog.mkChangelog cfgB).branch = JsString.str "" ∧
    Changelog.setBranch apiA (Changelog.mkChangelog cfgB) =
      ({ Changelog.mkChangelog cfgB with branch := JsString.undef }, [Ev.repoGet]) ∧
    (Changelog.setBranch apiA (Changelog.mkChangelog cfgB)).fst.branch ≠
      JsString.str cfgB.branch ∧
    Changelog.setBranch apiA (Changelog.setBranch apiA (Changelog.mkChangelog cfgB)).fst =
      ({ Changelog.mkChangelog cfgB with branch := JsString.undef }, [Ev.repoGet]) ∧
    Changelog.setBranch apiA (Changelog.mkChangelog cfgA) =
      ({ Changelog.mkChangelog cfgA with branch := JsString.undef }, [Ev.repoGet]) ∧
    Changelog.setBranch apiA (Changelog.setBranch apiA (Changelog.mkChangelog cfgA)).fst =
      ({ Changelog.mkChangelog cfgA with branch := JsString.undef }, [Ev.repoGet]) := by decide

/-- C7 counterexample: in the `apiA` run, tag-list page 0 is fetched three
times (once by `getLatestRelease`, once per release scanned by
`getPreviousRelease`, which restarts its tag search from page 0), refuting
the claim that no page of any paginated resource is requested more than
once within a run. -/
theorem c7_counterexample :
    resultTrace (Changelog.run apiA cfgA 5) = evsA ∧
    (resultTrace (Changelog.run apiA cfgA 5)).count (Ev.tagsList 0) = 3 := by decide

/-- C2: for every tag-list oracle in which the searched tag name never
appears, the page loops of `getLatestRelease` and `getPreviousRelease`
never finish: at EVERY fuel bound the model still reports `outOfFuel`
(the loop is still running), so the code loops forever and no
NotFound/Exhausted error is ever produced — refuting bounded termination. -/
theorem c2_tag_search_never_terminates (api : Api) (st : St) (tagName : String) (fuel : Nat)
    (h1 : api.latestRelease = some tagName)
    (h2 : api.releases[0]? = some tagName)
    (h3 : ∀ page tag, tag ∈ api.tagPages page → tag.name ≠ tagName) :
    Changelog.getLatestRelease api st fuel = Except.error Err.outOfFuel ∧
    Changelog.getPreviousRelease api st fuel = Except.error Err.outOfFuel := by
  have hnone := tagSearch_fst_none api tagName h3
  constructor
  · rcases hts : Changelog.tagSearch api tagName 0 fuel with ⟨fst, snd⟩
    have hfst : fst = none := by
      have h5 := hnone fuel 0
      rw [hts] at h5
      exact h5
    subst hfst
    rw [Changelog.getLatestRelease, h1]
    dsimp only
    rw [hts]
  · rw [Changelog.getPreviousRelease]
    cases fuel with
    | zero => rfl
    | succ n =>
      rcases hts : Changelog.tagSearch api tagName 0 (n + 1) with ⟨fst, snd⟩
      have hfst : fst = none := by
        have h5 := hnone (n + 1) 0
        rw [hts] at h5
        exact h5
      subst hfst
      rw [Changelog.prevLoop, h2]
      dsimp only
      rw [hts]

/-- C2 witness: a concrete oracle whose tag list is empty on every page. -/
theorem c2_witness :
    (apiNone.latestRelease = some "v1.0.0" ∧ apiNone.releases[0]? = some "v1.0.0" ∧
      (∀ page tag, tag ∈ apiNone.tagPages page → tag.name ≠ "v1.0.0")) ∧
    Changelog.getLatestRelease apiNone (Changelog.mkChangelog cfgA) 3 =
      Except.error Err.outOfFuel ∧
    Changelog.getPreviousRelease apiNone (Changelog.mkChangelog cfgA) 3 =
      Except.error Err.outOfFuel :=
  ⟨⟨rfl, rfl, fun _ _ hmem => nomatch hmem⟩,
   c2_tag_search_never_terminates apiNone (Changelog.mkChangelog cfgA) "v1.0.0" 3 rfl rfl
     (fun _ _ hmem => nomatch hmem)⟩

/-- C3: when the previous tag's commit is absent from the commit window
and every further commit page is empty (end of history), the ensure loop
of `generateChangelog` never stops: at EVERY fuel bound the model reports
the loop still running, so the code keeps fetching pages indefinitely and
no "commit not reachable on branch" error is produced (no such error
exists in the code) — refuting the claimed stop-and-fail behaviour. -/
theorem c3_ensure_loop_never_terminates (api : Api) (st : St) (fuel : Nat)
    (hp : ∀ page, st.commitPage ≤ page → api.commitPages st.branch page = [])
    (hm : st.previousTagsCommit ∉ st.commits) :
    Changelog.ensureLoop api fuel st = none ∧
    Changelog.generateChangelog api st fuel = Except.error Err.outOfFuel := by
  have h1 := ensureLoop_none_of_empty api fuel st hp hm
  refine ⟨h1, ?_⟩
  rw [Changelog.generateChangelog, h1]

/-- C3 witness: a state whose previous tag commit `px` is nowhere in the
history of an oracle with only empty commit pages. -/
theorem c3_witness :
    ((∀ page, stC3.commitPage ≤ page → apiNone.commitPages stC3.branch page = []) ∧
      stC3.previousTagsCommit ∉ stC3.commits) ∧
    Changelog.ensureLoop apiNone 7 stC3 = none ∧
    Changelog.generateChangelog apiNone stC3 7 = Except.error Err.outOfFuel :=
  ⟨⟨fun _ _ => rfl, by decide⟩,
   c3_ensure_loop_never_terminates apiNone stC3 7 (fun _ _ => rfl) (by decide)⟩

/-- C9: `getCommits` only appends, the `indexOf` of a SHA already present
is unchanged by appending later pages, and once the previous tag's index
is found the ensure loop exits at once with no further commit fetch
(its event list is empty and the state is unchanged). -/
theorem c9_index_stability (l more : List String) (sha : String) (api : Api) (st : St)
    (fuel : Nat) (h1 : sha ∈ l) (h2 : st.previousTagsCommit ∈ st.commits) :
    jsIndexOf (l ++ more) sha = jsIndexOf l sha ∧
    Changelog.ensureLoop api (fuel + 1) st =
      some (st, jsIndexOf st.commits st.latestTagsCommit,
            jsIndexOf st.commits st.previousTagsCommit, []) ∧
    (Changelog.getCommits api st).fst.commits =
      st.commits ++ api.commitPages st.branch st.commitPage :=
  ⟨jsIndexOf_append_of_mem l more sha h1, ensureLoop_found api st fuel h2, rfl⟩

/-- C9 witness: concrete instantiation at the `apiA` run's final state. -/
theorem c9_witness :
    ("b" ∈ ["a", "b"] ∧ stA.previousTagsCommit ∈ stA.commits) ∧
    (jsIndexOf (["a", "b"] ++ ["c"]) "b" = jsIndexOf ["a", "b"] "b" ∧
     Changelog.ensureLoop apiA (4 + 1) stA =
       some (stA, jsIndexOf stA.commits stA.latestTagsCommit,
             jsIndexOf stA.commits stA.previousTagsCommit, []) ∧
     (Changelog.getCommits apiA stA).fst.commits =
       stA.commits ++ apiA.commitPages stA.branch stA.commitPage) :=
  ⟨⟨by decide, by decide⟩,
   c9_index_stability ["a", "b"] ["c"] "b" apiA stA 4 (by decide) (by decide)⟩

/-- C5 (amended): `isEmpty` reflects the final assembled body including the
appended prior-changelog tail: after `generateChangelog`, `isEmpty` is true
iff both the generated PR lines and the appended prior content are empty;
in particular it is false whenever non-empty prior content was appended,
even if no PR line was generated. -/
theorem c5_amended (api : Api) (st : St) (fuel : Nat) (st' : St) (evs : List Ev)
    (h : Changelog.generateChangelog api st fuel = Except.ok (st', evs)) :
    Changelog.isEmpty st' = true ↔
      (Changelog.prScan st'.commits st'.pfx
        (jsIndexOf st'.commits st'.latestTagsCommit)
        (jsIndexOf st'.commits st'.previousTagsCommit) st'.pullRequests = "" ∧
       (Changelog.getChangelogFileContent api st').fst = "") := by
  obtain ⟨st2, iL, iP, evsE, hens, hst', hevs⟩ := generateChangelog_ok api st fuel st' evs h
  obtain ⟨A1, A2, _, _, _, _, _, _, _, _, _, _⟩ :=
    ensureLoop_spec api fuel st st2 iL iP evsE hens
  have hie : ∀ s : St, (Changelog.isEmpty s = true ↔ s.changelogBody = "") := by
    intro s
    rw [Changelog.isEmpty]
    by_cases hb : s.changelogBody = ""
    · simp [hb]
    · simp [hb]
  subst hst'
  rw [hie]
  dsimp only
  rw [← A1, ← A2]
  exact string_append_eq_empty_iff _ _

/-- C5 witness: the assembler scenario run, where the content fetch fails
and the body equals exactly the generated lines. -/
theorem c5_witness :
    Changelog.generateChangelog apiC1 stC1 3 =
      Except.ok (stC1Final, [Ev.commitsList 0, Ev.contentGet]) ∧
    (Changelog.isEmpty stC1Final = true ↔
      (Changelog.prScan stC1Final.commits stC1Final.pfx
        (jsIndexOf stC1Final.commits stC1Final.latestTagsCommit)
        (jsIndexOf stC1Final.commits stC1Final.previousTagsCommit)
        stC1Final.pullRequests = "" ∧
       (Changelog.getChangelogFileContent apiC1 stC1Final).fst = "")) :=
  ⟨by decide,
   c5_amended apiC1 stC1 3 stC1Final [Ev.commitsList 0, Ev.contentGet] (by decide)⟩

/-- C7 (amended): commit and pull-request pagination are monotonic within a
run — `getCommits` and `getPullRequests` fetch exactly the page at their
cursor and advance it by one, and in any successful run no commit page and
no PR page is fetched twice (their fetched page lists are duplicate-free).
Tag pages, by contrast, may be re-fetched (see the counterexample). -/
theorem c7_amended (api : Api) (cfg : Config) (fuel : Nat) (st : St) (evs : List Ev)
    (h : Changelog.run api cfg fuel = Except.ok (st, evs)) :
    (evs.filterMap evCommitPage).Nodup ∧
    (evs.filterMap evPullPage).Nodup ∧
    (Changelog.getCommits api st).snd = [Ev.commitsList st.commitPage] ∧
    (Changelog.getCommits api st).fst.commitPage = st.commitPage + 1 ∧
    (Changelog.getPullRequests api st).snd = [Ev.pullsList st.pullRequestPage] ∧
    (Changelog.getPullRequests api st).fst.pullRequestPage = st.pullRequestPage + 1 := by
  obtain ⟨_, _, hpp, hcp, _⟩ := run_ok api cfg fuel st evs h
  refine ⟨?_, ?_, rfl, rfl, rfl, rfl⟩
  · rw [hcp]
    exact List.nodup_range' _ _
  · rw [hpp]
    simp

/-- C7 witness: the `apiA` run. -/
theorem c7_witness :
    Changelog.run apiA cfgA 5 = Except.ok (stA, evsA) ∧
    ((evsA.filterMap evCommitPage).Nodup ∧
     (evsA.filterMap evPullPage).Nodup ∧
     (Changelog.getCommits apiA stA).snd = [Ev.commitsList stA.commitPage] ∧
     (Changelog.getCommits apiA stA).fst.commitPage = stA.commitPage + 1 ∧
     (Changelog.getPullRequests apiA stA).snd = [Ev.pullsList stA.pullRequestPage] ∧
     (Changelog.getPullRequests apiA stA).fst.pullRequestPage = stA.pullRequestPage + 1) :=
  ⟨by decide, c7_amended apiA cfgA 5 stA evsA (by decide)⟩

/-- C8: a prior-changelog fetch failure never aborts `generateChangelog`
(the only error it can return is the model's fuel marker for the unrelated
ensure loop), and when the content response is not a file answer the final
body equals exactly the PR-derived lines with an empty tail. -/
theorem c8_content_failure_degrades (api : Api) (st : St) (fuel : Nat)
    (hc : ∀ c, api.content st.previousTagsCommit ≠ ContentResponse.fileData c) :
    (∀ e, Changelog.generateChangelog api st fuel = Except.error e → e = Err.outOfFuel) ∧
    (∀ st' evs, Changelog.generateChangelog api st fuel = Except.ok (st', evs) →
      st'.changelogBody = Changelog.prScan st'.commits st'.pfx
        (jsIndexOf st'.commits st'.latestTagsCommit)
        (jsIndexOf st'.commits st'.previousTagsCommit) st'.pullRequests) := by
  constructor
  · intro e he
    rw [Changelog.generateChangelog] at he
    split at he
    · rw [Except.error.injEq] at he
      exact he.symm
    · cases he
  · intro st' evs h
    obtain ⟨st2, iL, iP, evsE, hens, hst', hevs⟩ := generateChangelog_ok api st fuel st' evs h
    obtain ⟨A1, A2, _, A4, _, _, _, _, _, _, _, _⟩ :=
      ensureLoop_spec api fuel st st2 iL iP evsE hens
    have hcc : ∀ c, api.content st2.previousTagsCommit ≠ ContentResponse.fileData c := by
      rw [A4]
      exact hc
    have hfst : (Changelog.getChangelogFileContent api st2).fst = "" := by
      rcases hco : api.content st2.previousTagsCommit with m | _ | c | _
      · rw [Changelog.getChangelogFileContent, hco]
      · rw [Changelog.getChangelogFileContent, hco]
      · exact absurd hco (hcc c)
      · rw [Changelog.getChangelogFileContent, hco]
    subst hst'
    dsimp only
    rw [hfst, String.append_empty, A1, A2]

/-- C8 witness: the assembler scenario, whose content fetch throws. -/
theorem c8_witness :
    (∀ c, apiC1.content stC1.previousTagsCommit ≠ ContentResponse.fileData c) ∧
    ((∀ e, Changelog.generateChangelog apiC1 stC1 3 = Except.error e → e = Err.outOfFuel) ∧
     (∀ st' evs, Changelog.generateChangelog apiC1 stC1 3 = Except.ok (st', evs) →
       st'.changelogBody = Changelog.prScan st'.commits st'.pfx
         (jsIndexOf st'.commits st'.latestTagsCommit)
         (jsIndexOf st'.commits st'.previousTagsCommit) st'.pullRequests)) :=
  ⟨(fun _ hc => nomatch hc),
   c8_content_failure_degrades apiC1 stC1 3 (fun _ hc => nomatch hc)⟩

/-- C10: in every successful run exactly one pull-request page (page 0) is
fetched, the PR window equals the merged PRs of that first page, and the
assembled body is built from a prefix of that window only (plus the prior
content tail) — a merged PR beyond the first page can never contribute a
line. -/
theorem c10_single_pr_page (api : Api) (cfg : Config) (fuel : Nat) (st : St) (evs : List Ev)
    (h : Changelog.run api cfg fuel = Except.ok (st, evs)) :
    evs.filterMap evPullPage = [0] ∧
    st.pullRequests = ((api.prPages JsString.undef 0).filter
        (fun pullRequest => pullRequest.mergedAt.isSome)).map
      (fun pullRequest => { url := pullRequest.htmlUrl, title := pullRequest.title,
                            commitSha := pullRequest.mergeCommitSha }) ∧
    ∃ k, k ≤ st.pullRequests.length ∧
      st.changelogBody =
        ((st.pullRequests.take k).map (fun pr => st.pfx ++ " " ++ pr.title ++ "\n")).foldr
          (fun a b => a ++ b) "" ++ (Changelog.getChangelogFileContent api st).fst := by
  obtain ⟨_, hprs, hpp, _, hbody⟩ := run_ok api cfg fuel st evs h
  exact ⟨hpp, hprs, hbody⟩

/-- C10 witness: the `apiA` run. -/
theorem c10_witness :
    Changelog.run apiA cfgA 5 = Except.ok (stA, evsA) ∧
    (evsA.filterMap evPullPage = [0] ∧
     stA.pullRequests = ((apiA.prPages JsString.undef 0).filter
        (fun pullRequest => pullRequest.mergedAt.isSome)).map
      (fun pullRequest => { url := pullRequest.htmlUrl, title := pullRequest.title,
                            commitSha := pullRequest.mergeCommitSha }) ∧
     ∃ k, k ≤ stA.pullRequests.length ∧
       stA.changelogBody =
         ((stA.pullRequests.take k).map (fun pr => stA.pfx ++ " " ++ pr.title ++ "\n")).foldr
           (fun a b => a ++ b) "" ++ (Changelog.getChangelogFileContent apiA stA).fst) :=
  ⟨by decide, c10_single_pr_page apiA cfgA 5 stA evsA (by decide)⟩
